import Mathlib

/-!
Verification development for the Reconciliation_sources repository.

The Python sources are shallowly embedded: spreadsheet cell values become the
`PyVal` inductive, dataframe key columns become lists, Python sets become
`Finset`s, and exceptions become `Except`.  Machine floats are modelled by
their exact rational value.
-/

/-- A Python scalar cell value as produced by the spreadsheet readers:
`None`, `bool`, `int`, `float` (modelled by its exact rational value) or
`str`. -/
inductive PyVal where
  | vNone
  | vBool (b : Bool)
  | vInt (n : Int)
  | vFloat (q : ℚ)
  | vStr (s : String)
deriving DecidableEq, Repr

/-- The decimal digit character for `n < 10` (`'9'` as a default otherwise). -/
def pyDigitChar (n : Nat) : Char :=
  match n with
  | 0 => '0' | 1 => '1' | 2 => '2' | 3 => '3' | 4 => '4'
  | 5 => '5' | 6 => '6' | 7 => '7' | 8 => '8' | _ => '9'

/-- Value of a list of decimal digit characters (most significant first). -/
def digitsToNat (l : List Char) : Nat :=
  l.foldl (fun a c => 10 * a + (c.toNat - 48)) 0

/-- Decimal digits of `n`, most significant first; fuel-based so that it is
structurally recursive and kernel-reducible. -/
def natDigitsAux : Nat → Nat → List Char
  | 0, _ => []
  | fuel + 1, n =>
    if n < 10 then [pyDigitChar n]
    else natDigitsAux fuel (n / 10) ++ [pyDigitChar (n % 10)]

/-- Decimal digits of `n`, most significant first. -/
def natDigits (n : Nat) : List Char := natDigitsAux (n + 1) n

/-- Decimal string of a natural number, as Python `str` prints it. -/
def natStr (n : Nat) : String := ⟨natDigits n⟩

/-- Decimal string of an integer, as Python `str` prints it. -/
def intStr (n : Int) : String :=
  if n < 0 then "-" ++ natStr n.natAbs else natStr n.toNat

/-- Drop the characters satisfying `p` from the end of a list. -/
def stripListEnd (p : Char → Bool) (l : List Char) : List Char :=
  (l.reverse.dropWhile p).reverse

/-- Python `str.strip()` on a character list: drop whitespace from both
ends. -/
def pyStripList (l : List Char) : List Char :=
  stripListEnd Char.isWhitespace (l.dropWhile Char.isWhitespace)

/-- Python `str.strip()`. -/
def pyStripStr (s : String) : String := ⟨pyStripList s.data⟩

/-- Fractional decimal digits of `rem / d`, with fuel.  Floats have finite
decimal expansions, so enough fuel renders them exactly. -/
def fracDigits : Nat → Nat → Nat → List Char
  | 0, _, _ => []
  | _ + 1, 0, _ => []
  | fuel + 1, rem, d =>
    pyDigitChar (rem * 10 / d) :: fracDigits fuel (rem * 10 % d) d

/-- Python `str` of a non-integer float value: sign, integer part, `'.'`,
fractional digits.  (Python prints the shortest round-tripping form; for the
finite binary fractions that arise this is their exact decimal expansion,
which is what we compute, up to 64 digits of fuel.) -/
def ratDecimalStr (q : ℚ) : String :=
  let sign := if q < 0 then "-" else ""
  let a := q.num.natAbs
  sign ++ natStr (a / q.den) ++ "." ++ ⟨fracDigits 64 (a % q.den) q.den⟩

/-- Python `str` on a scalar value. -/
def pyStr : PyVal → String
  | .vNone => "None"
  | .vBool b => if b then "True" else "False"
  | .vInt n => intStr n
  | .vFloat q => if q.den = 1 then intStr q.num ++ ".0" else ratDecimalStr q
  | .vStr s => s

/-- Parse an unsigned decimal literal (`digits`, `digits.digits`,
`.digits`, `digits.`) into its rational value
(`intpart + fracpart / 10 ^ fraclen`, built with `mkRat`). -/
def parseUnsigned (cs : List Char) : Option ℚ :=
  let ip := cs.takeWhile Char.isDigit
  match cs.dropWhile Char.isDigit with
  | [] => if ip.isEmpty then none else some ((digitsToNat ip : ℚ))
  | '.' :: fracs =>
    let fp := fracs.takeWhile Char.isDigit
    if (fracs.dropWhile Char.isDigit).isEmpty then
      if ip.isEmpty && fp.isEmpty then none
      else some (mkRat (digitsToNat ip * 10 ^ fp.length + digitsToNat fp) (10 ^ fp.length))
    else none
  | _ => none

/-- Parse an optional sign followed by an unsigned decimal literal. -/
def parseSigned (cs : List Char) : Option ℚ :=
  match cs with
  | [] => none
  | c :: rest =>
    if c = '-' then (parseUnsigned rest).map Rat.neg
    else if c = '+' then parseUnsigned rest
    else parseUnsigned (c :: rest)

/-- Modelled Python `float(str)`: strips surrounding whitespace and parses a
plain signed decimal literal, `none` on failure (the `ValueError` path).
Exponents, `inf`, `nan` and digit underscores are not modelled; no claim
exercises them. -/
def pyFloatParse (s : String) : Option ℚ :=
  parseSigned (pyStripList s.data)

/-- Python `int()` on a float value: truncation toward zero. -/
def pyIntOfFloat (q : ℚ) : Int := q.num.tdiv (q.den : Int)

/-- `clean_product_code` from `reconcile_products.py`: `None` stays `None`;
otherwise take `str(value)`, try `float` on it, print integers without the
trailing `.0`, return the string unchanged if the float is not an integer,
and fall back to the stripped string when the parse raises. -/
def clean_product_code (value : PyVal) : Option String :=
  match value with
  | .vNone => none
  | v =>
    let str_val := pyStr v
    match pyFloatParse str_val with
    | some float_val =>
      if float_val.den = 1 then some (intStr (pyIntOfFloat float_val))
      else some str_val
    | none => some (pyStripStr str_val)

/-- Polars `str.strip_chars_start(chars)`: drop the leading characters that
belong to `chars`. -/
def stripCharsStart (chars : List Char) (s : String) : String :=
  ⟨s.data.dropWhile (chars.contains ·)⟩

/-- Polars `str.strip_chars_end(chars)`: drop the trailing characters that
belong to `chars`. -/
def stripCharsEnd (chars : List Char) (s : String) : String :=
  ⟨stripListEnd (chars.contains ·) s.data⟩

/-- The `clean_and_convert` helper of `create_range_reconciliation`: the
unique raw codes of one source, mapped through `clean_product_code`
(`map_elements`, nulls stay null), deduplicated again. -/
def clean_and_convert (l : List PyVal) : List (Option String) :=
  (l.dedup.map clean_product_code).dedup

/-- Polars `is_in` on a nullable key: a null key yields a null boolean (which
`pl.when` then treats as false), a non-null key tests membership. -/
def plIsIn (k : Option String) (l : List (Option String)) : Option Bool :=
  match k with
  | none => none
  | some s => some (l.contains (some s))

/-- One row of the Range (Product) reconciliation matrix:
`ProductCode`, the three `"X"`/`""` presence columns, and `Absent_from`. -/
structure RangeRow where
  code : Option String
  ct : String
  jeeves : String
  stibo : String
  absent : String
deriving DecidableEq, Repr

/-- Build one Range row for key `k`: presence flags by `is_in` against each
cleaned source list, `"X"`/`""` marks, and the `Absent_from` column built by
`concat_str(..., separator=", ")` followed by
`strip_chars_start(", ")`, `strip_chars_end(", ")` and the `""` → `"-"`
substitution, exactly as in `create_range_reconciliation`. -/
def mkRangeRow (ctList jList sList : List (Option String)) (k : Option String) :
    RangeRow :=
  let ctP := plIsIn k ctList
  let jP := plIsIn k jList
  let sP := plIsIn k sList
  let ctX := if ctP = some true then "X" else ""
  let jX := if jP = some true then "X" else ""
  let sX := if sP = some true then "X" else ""
  let ctM := if ctP = some false then "CT" else ""
  let jM := if jP = some false then "JEEVES" else ""
  let sM := if sP = some false then "STIBO" else ""
  let raw := stripCharsEnd [',', ' ']
    (stripCharsStart [',', ' '] (ctM ++ ", " ++ jM ++ ", " ++ sM))
  ⟨k, ctX, jX, sX, if raw = "" then "-" else raw⟩

/-- Lexicographic comparison of character lists by code point — the string
order Python and polars sort by. -/
def charListLe : List Char → List Char → Bool
  | [], _ => true
  | _ :: _, [] => false
  | a :: as, b :: bs =>
    if a.toNat < b.toNat then true
    else if b.toNat < a.toNat then false
    else charListLe as bs

/-- Polars ascending sort order on the nullable key column: nulls first,
then string order. -/
def keyLeb (a b : Option String) : Bool :=
  match a, b with
  | none, _ => true
  | some _, none => false
  | some x, some y => charListLe x.data y.data

/-- `create_range_reconciliation` from `reconcile_products.py`: clean the
three sources, take the union of their unique codes, attach the presence and
`Absent_from` columns and sort ascending by `ProductCode`. -/
def create_range_reconciliation (jeves ct stibo : List PyVal) : List RangeRow :=
  let jeves_clean := clean_and_convert jeves
  let ct_clean := clean_and_convert ct
  let stibo_clean := clean_and_convert stibo
  let all_products := (jeves_clean ++ ct_clean ++ stibo_clean).dedup
  List.insertionSort (fun a b => keyLeb a.code b.code = true)
    (all_products.map (mkRangeRow ct_clean jeves_clean stibo_clean))

/-- `_normalize` from `reconcile_ekofisk_invoice_ordering.py`: strip each
(nullable) key, then keep only non-null, non-empty keys. -/
def _normalize (l : List (Option String)) : List (Option String) :=
  (l.map (Option.map pyStripStr)).filter (fun o => o ≠ none ∧ o ≠ some "")

/-- Python `str.isdigit()` on an ASCII string: non-empty and all digits. -/
def pyIsDigit (s : String) : Bool :=
  !s.data.isEmpty && s.data.all Char.isDigit

/-- Python `f-string` formatting `f"{n:04d}"`: decimal, zero-padded to a
total width of 4 (the sign occupies one position). -/
def format04 (n : Int) : String :=
  if n < 0 then
    "-" ++ ⟨List.replicate (3 - (natDigits n.natAbs).length) '0' ++ natDigits n.natAbs⟩
  else ⟨List.replicate (4 - (natDigits n.toNat).length) '0' ++ natDigits n.toNat⟩

/-- `_os_customer_code_to_str` from `reconcile_ekofisk_invoice_ordering.py`:
numbers (except bools) are truncated with `int(float(val))` and zero-padded
to 4 digits when in `[0, 10000)`; other values are stringified and stripped,
and digit-strings in that range are zero-padded as well. -/
def _os_customer_code_to_str (val : PyVal) : String :=
  match val with
  | .vInt i =>
    let n := pyIntOfFloat ((i : ℚ))
    if 0 ≤ n ∧ n < 10000 then format04 n else intStr n
  | .vFloat q =>
    let n := pyIntOfFloat q
    if 0 ≤ n ∧ n < 10000 then format04 n else intStr n
  | v =>
    let s := pyStripStr (pyStr v)
    if pyIsDigit s then
      let n : Int := (digitsToNat s.data : Int)
      if 0 ≤ n ∧ n < 10000 then format04 n else s
    else s

/-- `_jeves_os_customer_code_raw` from
`reconcile_ekofisk_invoice_ordering.py`: `None` and blank strings become
`None`; numbers (except bools) are truncated and zero-padded to 4 digits
when in `[0, 10000)`; other values are stringified and stripped. -/
def _jeves_os_customer_code_raw (val : PyVal) : Option String :=
  match val with
  | .vNone => none
  | .vStr s =>
    if pyStripStr s = "" then none
    else some (pyStripStr s)
  | .vInt i =>
    let n := pyIntOfFloat ((i : ℚ))
    some (if 0 ≤ n ∧ n < 10000 then format04 n else intStr n)
  | .vFloat q =>
    let n := pyIntOfFloat q
    some (if 0 ≤ n ∧ n < 10000 then format04 n else intStr n)
  | .vBool b =>
    let s := pyStripStr (pyStr (.vBool b))
    if s = "" then none else some s

/-- One row of the Invoice/Ordering reconciliation: the code and the six
`"X"`/`""` presence columns. -/
structure RecRow where
  code : String
  stibo_vendor : String
  stibo_customer : String
  ct_vendor : String
  ct_customer : String
  jeves_vendor : String
  jeves_customer : String
deriving DecidableEq, Repr

/-- The `"X"`/`""` presence mark. -/
def xMark (p : Prop) [Decidable p] : String := if p then "X" else ""

/-- `build_reconciliation` from `reconcile_ekofisk_invoice_ordering.py`:
form the six Python sets, sort their union ascending, and emit one row per
code with an `"X"` per source that contains it. -/
def build_reconciliation
    (stibo_vendor stibo_customer ct_vendor ct_customer jeves_vendor jeves_customer :
      List String) : List RecRow :=
  let sv := stibo_vendor.toFinset
  let sc := stibo_customer.toFinset
  let cv := ct_vendor.toFinset
  let cc := ct_customer.toFinset
  let jv := jeves_vendor.toFinset
  let jc := jeves_customer.toFinset
  let all_codes := (sv ∪ sc ∪ cv ∪ cc ∪ jv ∪ jc).sort (· ≤ ·)
  all_codes.map (fun c =>
    ⟨c, xMark (c ∈ sv), xMark (c ∈ sc), xMark (c ∈ cv), xMark (c ∈ cc),
      xMark (c ∈ jv), xMark (c ∈ jc)⟩)

/-- The key set of an optional dataframe as `_diff_codes` forms it: a missing
(`None`) or empty frame is the empty set, otherwise the set of non-null keys
(`drop_nulls`). -/
def df_key_set (df : Option (List (Option String))) : Finset String :=
  match df with
  | none => ∅
  | some l => if l.length = 0 then ∅ else (l.filterMap id).toFinset

/-- `_diff_codes` from `app_streamlit.py`: sorted `new - old`, sorted
`old - new`, and the cardinality of the intersection. -/
def _diff_codes (df_old df_new : Option (List (Option String))) :
    List String × List String × Nat :=
  let old_set := df_key_set df_old
  let new_set := df_key_set df_new
  ((new_set \ old_set).sort (· ≤ ·), (old_set \ new_set).sort (· ≤ ·),
    (old_set ∩ new_set).card)

/-- The persisted fingerprint record of `reconcile_products.py`
(`.reconciliation_hash.json`): the combined input hash (the `input_hash`
JSON field, possibly absent) and the output file it described. -/
structure HashInfo where
  input_hash : Option String
  output_file : String

/-- The declared input files of `get_input_files_hash`. -/
def input_files : List String :=
  ["JEEVES/RECONC Product Data 2026-02-04.xlsx",
   "CT/P1 Data Cleansing - Product Ekofisk.xlsb",
   "STIBO/extract_stibo_all_products.xlsx"]

/-- `get_file_hash`: hash the file's bytes, `None` when the file is missing
(`FileNotFoundError`).  The file system `fs` and the digest `md5` are
parameters of the model. -/
def get_file_hash (fs : String → Option (List Nat)) (md5 : List Nat → String)
    (path : String) : Option String :=
  match fs path with
  | some bytes => some (md5 bytes)
  | none => none

/-- The loop of `get_input_files_hash`: collect `"path:hash"` entries, and
return `None` as soon as one file has no (truthy) hash. -/
def collect_input_hashes (fs : String → Option (List Nat))
    (md5 : List Nat → String) : List String → Option (List String)
  | [] => some []
  | p :: rest =>
    match get_file_hash fs md5 p with
    | some h =>
      if h = "" then none
      else (collect_input_hashes fs md5 rest).map (fun t => (p ++ ":" ++ h) :: t)
    | none => none

/-- The bytes of a string, as Python `str.encode()` produces for ASCII. -/
def strBytes (s : String) : List Nat := s.data.map Char.toNat

/-- `get_input_files_hash`: `None` when any input file is missing, otherwise
the digest of the `"|"`-joined `"path:hash"` entries. -/
def get_input_files_hash (fs : String → Option (List Nat))
    (md5 : List Nat → String) : Option String :=
  (collect_input_hashes fs md5 input_files).map
    (fun hashes => md5 (strBytes (String.intercalate "|" hashes)))

/-- The overwrite condition of `main` in `reconcile_products.py`:
`current_input_hash and previous_hash_info and
previous_hash_info.get("input_hash") == current_input_hash`. -/
def overwrite_decision (current : Option String) (previous : Option HashInfo) :
    Bool :=
  match current, previous with
  | some c, some p => decide (p.input_hash = some c)
  | _, _ => false

/-- The output-file choice of `main`: reuse the newest existing range file
(default name when none exists) on overwrite, otherwise a fresh
timestamp-suffixed name. -/
def main_output_file (current : Option String) (previous : Option HashInfo)
    (existing_range : Option String) (timestamp : String) : String :=
  if overwrite_decision current previous then
    match existing_range with
    | some f => f
    | none => "Range_Reconciliation.xlsx"
  else "Range_Reconciliation_" ++ timestamp ++ ".xlsx"

/-- A loaded worksheet: header row 1 and the data rows (row 2 onward), each
cell a `PyVal` (`vNone` for an empty cell). -/
structure Sheet where
  headers : List (Option String)
  rows : List (List PyVal)

/-- The header normalization `str(h).strip().lower().replace(" ", "")` used
by the STIBO loaders. -/
def pyNormHeader (s : String) : String :=
  ⟨((pyStripList s.data).map Char.toLower).filter (fun c => c ≠ ' ')⟩

/-- Scan the headers for the first one whose normalization is among
`aliases`; `i` counts the headers already scanned.  Returns the 1-based
column index. -/
def headerFindIdx (aliases : List String) : Nat → List (Option String) → Option Nat
  | _, [] => none
  | i, none :: rest => headerFindIdx aliases (i + 1) rest
  | i, some h :: rest =>
    if aliases.contains (pyNormHeader h) then some (i + 1)
    else headerFindIdx aliases (i + 1) rest

/-- `_stibo_header_col` from `reconcile_ekofisk_invoice_ordering.py`: the
1-based column whose normalized header matches one of the aliases, else 1. -/
def _stibo_header_col (headers : List (Option String))
    (header_aliases : List String) : Nat :=
  (headerFindIdx header_aliases 0 headers).getD 1

/-- The `[h for h in headers if h]` listing of the headers actually present
(Python truthiness drops `None` and `""`). -/
def present_headers (headers : List (Option String)) : List String :=
  (headers.filterMap id).filter (fun h => h ≠ "")

/-- The components of the `ValueError` raised when a declared column is
missing: the missing column name, the file name, and the headers present. -/
structure LayoutError where
  missing : String
  filename : String
  available : List String
deriving DecidableEq, Repr

/-- A cell the loaders skip: `None`, or a string that is blank after
stripping. -/
def cellBlank : PyVal → Bool
  | .vNone => true
  | .vStr s => decide (pyStripStr s = "")
  | _ => false

/-- Collect the non-blank values of the 1-based column `col` over the data
rows (`openpyxl` yields `None` for a missing cell). -/
def collectCol (col : Nat) (rows : List (List PyVal)) : List PyVal :=
  (rows.map (fun r => r.getD (col - 1) .vNone)).filter (fun v => !cellBlank v)

/-- `load_stibo_os_vendors`: locate the `SUVC Ordering/Shipping` column by
normalized header match; raise a `ValueError` naming the missing column and
the headers present when it is not found, else collect the column. -/
def load_stibo_os_vendors (filename : String) (sheet : Sheet) :
    Except LayoutError (List PyVal) :=
  match headerFindIdx ["suvcordering/shipping"] 0 sheet.headers with
  | none => .error ⟨"SUVC Ordering/Shipping", filename, present_headers sheet.headers⟩
  | some col_idx => .ok (collectCol col_idx sheet.rows)

/-- `load_stibo_vendor_invoice_2302`: resolve the column through
`_stibo_header_col` (which falls back to column 1) and collect it — this
loader never raises. -/
def load_stibo_vendor_invoice_2302 (sheet : Sheet) : List PyVal :=
  collectCol (_stibo_header_col sheet.headers ["suvcinvoice", "suvc-invoice"])
    sheet.rows

/-! ### Decimal printing and parsing lemmas -/

theorem pyDigitChar_spec (n : Nat) :
    (pyDigitChar n).isDigit = true ∧ (pyDigitChar n).isWhitespace = false := by
  match n with
  | 0 | 1 | 2 | 3 | 4 | 5 | 6 | 7 | 8 => decide
  | m + 9 => exact ⟨rfl, rfl⟩

theorem pyDigitChar_toNat (n : Nat) (h : n < 10) :
    (pyDigitChar n).toNat = 48 + n := by
  interval_cases n <;> decide

theorem digitsToNat_append_singleton (l : List Char) (c : Char) :
    digitsToNat (l ++ [c]) = 10 * digitsToNat l + (c.toNat - 48) := by
  simp [digitsToNat, List.foldl_append]

theorem digitsToNat_natDigitsAux (fuel n : Nat) (h : n < fuel) :
    digitsToNat (natDigitsAux fuel n) = n := by
  induction fuel generalizing n with
  | zero => omega
  | succ fuel ih =>
    rw [natDigitsAux]
    by_cases h10 : n < 10
    · rw [if_pos h10]
      have := pyDigitChar_toNat n h10
      simp [digitsToNat, this]
    · rw [if_neg h10]
      rw [digitsToNat_append_singleton, ih (n / 10) (by omega),
        pyDigitChar_toNat (n % 10) (Nat.mod_lt _ (by omega))]
      omega

theorem digitsToNat_natDigits (n : Nat) : digitsToNat (natDigits n) = n :=
  digitsToNat_natDigitsAux (n + 1) n (Nat.lt_succ_self n)

theorem natDigitsAux_mem (fuel n : Nat) (c : Char) (h : c ∈ natDigitsAux fuel n) :
    c.isDigit = true ∧ c.isWhitespace = false := by
  induction fuel generalizing n with
  | zero => simp [natDigitsAux] at h
  | succ fuel ih =>
    rw [natDigitsAux] at h
    by_cases h10 : n < 10
    · rw [if_pos h10] at h
      rw [List.mem_singleton.mp h]
      exact pyDigitChar_spec n
    · rw [if_neg h10] at h
      rcases List.mem_append.mp h with h' | h'
      · exact ih _ h'
      · rw [List.mem_singleton.mp h']
        exact pyDigitChar_spec (n % 10)

theorem natDigits_mem (n : Nat) (c : Char) (h : c ∈ natDigits n) :
    c.isDigit = true ∧ c.isWhitespace = false :=
  natDigitsAux_mem (n + 1) n c h

theorem natDigitsAux_ne_nil (fuel n : Nat) (h : 0 < fuel) :
    natDigitsAux fuel n ≠ [] := by
  match fuel, h with
  | fuel + 1, _ =>
    rw [natDigitsAux]
    by_cases h10 : n < 10
    · simp [h10]
    · simp [h10]

theorem natDigits_ne_nil (n : Nat) : natDigits n ≠ [] :=
  natDigitsAux_ne_nil (n + 1) n (Nat.succ_pos n)

theorem takeWhile_append_all (p : Char → Bool) (l r : List Char)
    (h : ∀ c ∈ l, p c = true) :
    (l ++ r).takeWhile p = l ++ r.takeWhile p := by
  induction l with
  | nil => rfl
  | cons a l ih =>
    have ha := h a (List.mem_cons_self a l)
    have ht := ih (fun c hc => h c (List.mem_cons_of_mem a hc))
    simp [List.takeWhile_cons, ha, ht]

theorem dropWhile_append_all (p : Char → Bool) (l r : List Char)
    (h : ∀ c ∈ l, p c = true) :
    (l ++ r).dropWhile p = r.dropWhile p := by
  induction l with
  | nil => rfl
  | cons a l ih =>
    have ha := h a (List.mem_cons_self a l)
    have ht := ih (fun c hc => h c (List.mem_cons_of_mem a hc))
    simp [List.dropWhile_cons, ha, ht]

theorem dropWhile_all_false (p : Char → Bool) (l : List Char)
    (h : ∀ c ∈ l, p c = false) : l.dropWhile p = l := by
  induction l with
  | nil => rfl
  | cons a l ih =>
    have ha := h a (List.mem_cons_self a l)
    have ht := ih (fun c hc => h c (List.mem_cons_of_mem a hc))
    simp [List.dropWhile_cons, ha, ht]

theorem dropWhile_all_true (p : Char → Bool) (l : List Char)
    (h : ∀ c ∈ l, p c = true) : l.dropWhile p = [] := by
  induction l with
  | nil => rfl
  | cons a l ih =>
    have ha := h a (List.mem_cons_self a l)
    have ht := ih (fun c hc => h c (List.mem_cons_of_mem a hc))
    simp [List.dropWhile_cons, ha, ht]

theorem pyStripList_id (l : List Char) (h : ∀ c ∈ l, c.isWhitespace = false) :
    pyStripList l = l := by
  unfold pyStripList stripListEnd
  rw [dropWhile_all_false _ _ h,
    dropWhile_all_false _ _ (fun c hc => h c (List.mem_reverse.mp hc)),
    List.reverse_reverse]

theorem pyStripList_all_ws (l : List Char) (h : ∀ c ∈ l, c.isWhitespace = true) :
    pyStripList l = [] := by
  unfold pyStripList stripListEnd
  rw [dropWhile_all_true _ _ h]
  rfl

theorem parseUnsigned_natDigits (m : Nat) :
    parseUnsigned (natDigits m ++ ['.', '0']) = some ((m : ℚ)) := by
  have hdig : ∀ c ∈ natDigits m, Char.isDigit c = true :=
    fun c hc => (natDigits_mem m c hc).1
  have htake := takeWhile_append_all Char.isDigit (natDigits m) ['.', '0'] hdig
  have hdrop := dropWhile_append_all Char.isDigit (natDigits m) ['.', '0'] hdig
  have hip : (natDigits m ++ ['.', '0']).takeWhile Char.isDigit = natDigits m := by
    rw [htake]; simp
  have hfr : (natDigits m ++ ['.', '0']).dropWhile Char.isDigit = ['.', '0'] := by
    rw [hdrop]; rfl
  simp only [parseUnsigned, hip, hfr]
  have h0 : List.takeWhile Char.isDigit ['0'] = ['0'] := rfl
  have h1 : List.dropWhile Char.isDigit ['0'] = ([] : List Char) := rfl
  simp only [h0, h1, List.isEmpty_nil, if_true, List.isEmpty_cons, Bool.and_false,
    Bool.false_eq_true, if_false, digitsToNat_natDigits, List.length_singleton]
  have h2 : digitsToNat ['0'] = 0 := rfl
  rw [h2, Rat.mkRat_eq_div]
  push_cast
  norm_num

theorem parseSigned_cons_digit (c : Char) (rest : List Char)
    (hd : c.isDigit = true) :
    parseSigned (c :: rest) = parseUnsigned (c :: rest) := by
  have h1 : c ≠ '-' := fun e => by rw [e] at hd; exact absurd hd (by decide)
  have h2 : c ≠ '+' := fun e => by rw [e] at hd; exact absurd hd (by decide)
  simp [parseSigned, h1, h2]

theorem parseSigned_neg (rest : List Char) :
    parseSigned ('-' :: rest) = (parseUnsigned rest).map Rat.neg := by
  simp [parseSigned]

theorem printed_not_ws (m : Nat) :
    ∀ c ∈ natDigits m ++ ['.', '0'], c.isWhitespace = false := by
  intro c hc
  rcases List.mem_append.mp hc with h | h
  · exact (natDigits_mem m c h).2
  · simp only [List.mem_cons, List.not_mem_nil, or_false] at h
    rcases h with rfl | rfl <;> decide

theorem pyFloatParse_natStr_frac (m : Nat) :
    pyFloatParse (natStr m ++ ".0") = some ((m : ℚ)) := by
  have hdata : (natStr m ++ ".0").data = natDigits m ++ ['.', '0'] := by
    rw [String.data_append]; rfl
  rw [pyFloatParse, hdata, pyStripList_id _ (printed_not_ws m)]
  cases hnil : natDigits m with
  | nil => exact absurd hnil (natDigits_ne_nil m)
  | cons c cs =>
    have hcd : c.isDigit = true := by
      have : c ∈ natDigits m := by rw [hnil]; exact List.mem_cons_self c cs
      exact (natDigits_mem m c this).1
    rw [List.cons_append, parseSigned_cons_digit c _ hcd, ← List.cons_append,
      ← hnil, parseUnsigned_natDigits]

theorem pyFloatParse_intStr (k : Int) :
    pyFloatParse (intStr k ++ ".0") = some ((k : ℚ)) := by
  by_cases hk : k < 0
  · have hi : intStr k = "-" ++ natStr k.natAbs := if_pos hk
    have hdata : (intStr k ++ ".0").data = '-' :: (natDigits k.natAbs ++ ['.', '0']) := by
      rw [hi, String.append_assoc, String.data_append]
      rfl
    have hws : ∀ c ∈ '-' :: (natDigits k.natAbs ++ ['.', '0']), c.isWhitespace = false := by
      intro c hc
      rcases List.mem_cons.mp hc with rfl | h
      · decide
      · exact printed_not_ws _ c h
    rw [pyFloatParse, hdata, pyStripList_id _ hws, parseSigned_neg,
      parseUnsigned_natDigits]
    have hneg : Rat.neg ((k.natAbs : ℚ)) = -((k.natAbs : ℚ)) := rfl
    show some (Rat.neg ((k.natAbs : ℚ))) = some ((k : ℚ))
    rw [hneg]
    congr 1
    have habs : ((k.natAbs : ℚ)) = -(k : ℚ) := by
      rw [Int.cast_natAbs, abs_of_neg hk]
      push_cast
      ring
    rw [habs, neg_neg]
  · have hi : intStr k = natStr k.toNat := if_neg hk
    rw [hi, pyFloatParse_natStr_frac]
    congr 1
    exact_mod_cast Int.toNat_of_nonneg (le_of_not_lt hk)

theorem pyIntOfFloat_intCast (n : ℤ) : pyIntOfFloat ((n : ℚ)) = n := by
  unfold pyIntOfFloat
  rw [Rat.num_intCast, Rat.den_intCast, Nat.cast_one, Int.tdiv_one]

theorem pyIntOfFloat_den_one (q : ℚ) (h : q.den = 1) : pyIntOfFloat q = q.num := by
  unfold pyIntOfFloat
  rw [h, Nat.cast_one, Int.tdiv_one]

/-- C9. For every float value that is mathematically an integer
(`f == int(f)`, i.e. denominator 1), `clean_product_code` returns the
canonical decimal string of `int(f)`, without the trailing `.0`. -/
theorem c9_clean_integer_float (q : ℚ) (h : q.den = 1) :
    clean_product_code (.vFloat q) = some (intStr (pyIntOfFloat q)) := by
  have hps : pyStr (.vFloat q) = intStr q.num ++ ".0" := by
    simp [pyStr, h]
  rw [clean_product_code.eq_def]
  simp only [hps, pyFloatParse_intStr, Rat.den_intCast, if_true,
    pyIntOfFloat_intCast, pyIntOfFloat_den_one q h]

/-- C9 witness. `1234.0` normalizes to `"1234"`. -/
theorem c9_witness :
    (1234 : ℚ).den = 1 ∧
      clean_product_code (.vFloat (1234 : ℚ)) = some (intStr (pyIntOfFloat (1234 : ℚ))) :=
  ⟨by decide, c9_clean_integer_float (1234 : ℚ) (by decide)⟩

/-- C4 (amended). `clean_product_code` maps `None` to `None`, but maps a
whitespace-only string to the empty string `""` (the `float` parse raises and
the fallback strips the string), not to `None`. -/
theorem c4_whitespace_amended :
    clean_product_code PyVal.vNone = none ∧
      ∀ s : String, (∀ c ∈ s.data, c.isWhitespace = true) →
        clean_product_code (.vStr s) = some "" := by
  refine ⟨rfl, fun s hws => ?_⟩
  have hp : pyFloatParse (pyStr (.vStr s)) = none := by
    show parseSigned (pyStripList s.data) = none
    rw [pyStripList_all_ws s.data hws]
    rfl
  have hst : pyStripStr (pyStr (.vStr s)) = "" := by
    show String.mk (pyStripList s.data) = ""
    rw [pyStripList_all_ws s.data hws]
  rw [clean_product_code.eq_def]
  simp only [hp]
  rw [hst]

/-- C4 witness. The amended claim at the concrete input `"   "`. -/
theorem c4_witness :
    (∀ c ∈ ("   " : String).data, c.isWhitespace = true) ∧
      clean_product_code (.vStr "   ") = some "" :=
  ⟨by decide, c4_whitespace_amended.2 "   " (by decide)⟩

/-- C4 counterexample. The claim as stated is false:
`clean_product_code("   ")` is not `None` (it is `""`). -/
theorem c4_counterexample : clean_product_code (PyVal.vStr "   ") ≠ none := by
  decide

theorem pyStripStr_natStr (n : Nat) : pyStripStr (natStr n) = natStr n := by
  show String.mk (pyStripList (natDigits n)) = natStr n
  rw [pyStripList_id _ (fun c hc => (natDigits_mem n c hc).2)]
  rfl

theorem pyIsDigit_natStr (n : Nat) : pyIsDigit (natStr n) = true := by
  unfold pyIsDigit
  have h1 : (natStr n).data.isEmpty = false := by
    rw [List.isEmpty_eq_false_iff_exists_mem]
    cases hnil : natDigits n with
    | nil => exact absurd hnil (natDigits_ne_nil n)
    | cons c cs => exact ⟨c, by show c ∈ natDigits n; rw [hnil]; exact List.mem_cons_self c cs⟩
  have h2 : (natStr n).data.all Char.isDigit = true := by
    rw [List.all_eq_true]
    exact fun c hc => (natDigits_mem n c hc).1
  rw [h1, h2]
  rfl

/-- C5. The zero-pad variant for order/shipping customer codes maps
both the integer `n` and the digit-string `str(n)` to `f"{n:04d}"` whenever
`0 ≤ n < 10000`; the raw JEEVES variant pads the integer the same way. -/
theorem c5_zero_pad (n : Nat) (h : n < 10000) :
    _os_customer_code_to_str (.vInt (n : ℤ)) = format04 (n : ℤ) ∧
      _os_customer_code_to_str (.vStr (natStr n)) = format04 (n : ℤ) ∧
      _jeves_os_customer_code_raw (.vInt (n : ℤ)) = some (format04 (n : ℤ)) := by
  have hcond : 0 ≤ ((n : ℕ) : ℤ) ∧ ((n : ℕ) : ℤ) < 10000 :=
    ⟨Int.ofNat_nonneg n, by exact_mod_cast h⟩
  refine ⟨?_, ?_, ?_⟩
  · rw [_os_customer_code_to_str.eq_def]
    simp only [pyIntOfFloat_intCast]
    rw [if_pos hcond]
  · rw [_os_customer_code_to_str.eq_def]
    simp only [pyStr, pyStripStr_natStr, pyIsDigit_natStr, if_true]
    have hd : digitsToNat (natStr n).data = n := digitsToNat_natDigits n
    simp only [hd]
    rw [if_pos hcond]
  · rw [_jeves_os_customer_code_raw.eq_def]
    simp only [pyIntOfFloat_intCast]
    rw [if_pos hcond]

/-- C5 witness. Both `5` and `"5"` normalize to `"0005"`. -/
theorem c5_witness :
    (5 : ℕ) < 10000 ∧
      _os_customer_code_to_str (.vInt ((5 : ℕ) : ℤ)) = format04 ((5 : ℕ) : ℤ) ∧
      _os_customer_code_to_str (.vStr (natStr 5)) = format04 ((5 : ℕ) : ℤ) ∧
      _jeves_os_customer_code_raw (.vInt ((5 : ℕ) : ℤ)) = some (format04 ((5 : ℕ) : ℤ)) :=
  ⟨by decide, c5_zero_pad 5 (by decide)⟩

/-- C10. The zero-pad variant truncates non-integer floats toward zero
and zero-pads the truncation when it lies in `[0, 10000)`; integers outside
`[0, 10000)` come back as plain `str(int(v))` without padding. -/
theorem c10_truncation :
    (∀ q : ℚ, q.den ≠ 1 → 0 ≤ pyIntOfFloat q → pyIntOfFloat q < 10000 →
        _os_customer_code_to_str (.vFloat q) = format04 (pyIntOfFloat q)) ∧
      (∀ n : ℤ, n < 0 ∨ 10000 ≤ n →
        _os_customer_code_to_str (.vInt n) = intStr n) := by
  constructor
  · intro q _ h0 h1
    rw [_os_customer_code_to_str.eq_def]
    simp only []
    rw [if_pos ⟨h0, h1⟩]
  · intro n hn
    rw [_os_customer_code_to_str.eq_def]
    simp only [pyIntOfFloat_intCast]
    rw [if_neg (by omega)]

/-- C10 witness. `5.7` normalizes to the padded truncation `"0005"`,
and the out-of-range integer `-5` to the unpadded `"-5"`. -/
theorem c10_witness :
    (mkRat 57 10).den ≠ 1 ∧ 0 ≤ pyIntOfFloat (mkRat 57 10) ∧
      pyIntOfFloat (mkRat 57 10) < 10000 ∧
      _os_customer_code_to_str (.vFloat (mkRat 57 10)) = format04 (pyIntOfFloat (mkRat 57 10)) ∧
      ((-5 : ℤ) < 0 ∨ 10000 ≤ (-5 : ℤ)) ∧
      _os_customer_code_to_str (.vInt (-5)) = intStr (-5) :=
  ⟨by decide, by decide, by decide,
    c10_truncation.1 (mkRat 57 10) (by decide) (by decide) (by decide),
    by decide, c10_truncation.2 (-5) (by decide)⟩

theorem build_reconciliation_codes (sv sc cv cc jv jc : List String) :
    (build_reconciliation sv sc cv cc jv jc).map RecRow.code =
      (sv.toFinset ∪ sc.toFinset ∪ cv.toFinset ∪ cc.toFinset ∪ jv.toFinset ∪
        jc.toFinset).sort (· ≤ ·) := by
  simp only [build_reconciliation]
  rw [List.map_map]
  exact List.map_id _

/-- C2. The key column of the presence matrix built by
`build_reconciliation` is exactly the union of the six source key sets, in
strictly ascending string order. -/
theorem c2_union_sorted (sv sc cv cc jv jc : List String) :
    ((build_reconciliation sv sc cv cc jv jc).map RecRow.code).Sorted (· < ·) ∧
      ∀ k, k ∈ (build_reconciliation sv sc cv cc jv jc).map RecRow.code ↔
        (k ∈ sv ∨ k ∈ sc ∨ k ∈ cv ∨ k ∈ cc ∨ k ∈ jv ∨ k ∈ jc) := by
  rw [build_reconciliation_codes]
  constructor
  · exact Finset.sort_sorted_lt _
  · intro k
    rw [Finset.mem_sort]
    simp [List.mem_toFinset, Finset.mem_union, or_assoc]

/-- C3. `_diff_codes` returns `added` as the sorted set difference
`newer - older`, `removed` as the sorted `older - newer`, and
`unchanged_count` as the intersection cardinality; a missing (`None`) or
empty older frame acts as the empty set, yielding `added = sorted(newer)`,
`removed = []`, `unchanged_count = 0`, with no error. -/
theorem c3_diff_codes (df_old df_new : Option (List (Option String))) :
    ((_diff_codes df_old df_new).1.Sorted (· < ·) ∧
      ∀ k, k ∈ (_diff_codes df_old df_new).1 ↔
        k ∈ df_key_set df_new ∧ k ∉ df_key_set df_old) ∧
    ((_diff_codes df_old df_new).2.1.Sorted (· < ·) ∧
      ∀ k, k ∈ (_diff_codes df_old df_new).2.1 ↔
        k ∈ df_key_set df_old ∧ k ∉ df_key_set df_new) ∧
    ((_diff_codes df_old df_new).2.2 =
      (df_key_set df_old ∩ df_key_set df_new).card) ∧
    ((df_old = none ∨ df_old = some []) →
      (_diff_codes df_old df_new).1 = (df_key_set df_new).sort (· ≤ ·) ∧
        (_diff_codes df_old df_new).2.1 = [] ∧
        (_diff_codes df_old df_new).2.2 = 0) := by
  refine ⟨⟨Finset.sort_sorted_lt _, fun k => ?_⟩,
    ⟨Finset.sort_sorted_lt _, fun k => ?_⟩, rfl, fun h => ?_⟩
  · rw [show (_diff_codes df_old df_new).1 =
        ((df_key_set df_new) \ (df_key_set df_old)).sort (· ≤ ·) from rfl,
      Finset.mem_sort, Finset.mem_sdiff]
  · rw [show (_diff_codes df_old df_new).2.1 =
        ((df_key_set df_old) \ (df_key_set df_new)).sort (· ≤ ·) from rfl,
      Finset.mem_sort, Finset.mem_sdiff]
  · have hempty : df_key_set df_old = ∅ := by
      rcases h with rfl | rfl
      · rfl
      · rfl
    refine ⟨?_, ?_, ?_⟩
    · show ((df_key_set df_new) \ (df_key_set df_old)).sort (· ≤ ·) = _
      rw [hempty, Finset.sdiff_empty]
    · show ((df_key_set df_old) \ (df_key_set df_new)).sort (· ≤ ·) = []
      rw [hempty, Finset.empty_sdiff, Finset.sort_empty]
    · show ((df_key_set df_old) ∩ (df_key_set df_new)).card = 0
      rw [hempty, Finset.empty_inter, Finset.card_empty]

/-- C3 witness. Diffing a missing older version against a one-key newer
version reports that key as added, nothing removed, nothing unchanged. -/
theorem c3_witness :
    (_diff_codes none (some [some "A"])).1 = ["A"] ∧
      (_diff_codes none (some [some "A"])).2.1 = [] ∧
      (_diff_codes none (some [some "A"])).2.2 = 0 := by
  have h := (c3_diff_codes none (some [some "A"])).2.2.2 (Or.inl rfl)
  refine ⟨?_, h.2.1, h.2.2⟩
  rw [h.1, show df_key_set (some [some "A"]) = {"A"} from rfl,
    Finset.sort_singleton]

theorem collect_input_hashes_missing (fs : String → Option (List Nat))
    (md5 : List Nat → String) :
    ∀ l : List String, (∃ p ∈ l, fs p = none) →
      collect_input_hashes fs md5 l = none := by
  intro l
  induction l with
  | nil => rintro ⟨p, hp, _⟩; cases hp
  | cons a rest ih =>
    rintro ⟨p, hp, hfs⟩
    rcases List.mem_cons.mp hp with rfl | hmem
    · simp [collect_input_hashes, get_file_hash, hfs]
    · cases hg : fs a with
      | none => simp [collect_input_hashes, get_file_hash, hg]
      | some bytes =>
        simp [collect_input_hashes, get_file_hash, hg, ih ⟨p, hmem, hfs⟩]

/-- C6. The run overwrites the previous artifact iff a fingerprint was
computed and it equals the recorded one; a missing input file forces a
`None` fingerprint, and any non-overwrite case yields a timestamp-suffixed
output name. -/
theorem c6_overwrite_iff (fs : String → Option (List Nat))
    (md5 : List Nat → String) (previous : Option HashInfo) :
    (overwrite_decision (get_input_files_hash fs md5) previous = true ↔
      ∃ c, get_input_files_hash fs md5 = some c ∧
        ∃ p, previous = some p ∧ p.input_hash = some c) ∧
      ((∃ f ∈ input_files, fs f = none) → get_input_files_hash fs md5 = none) ∧
      (∀ existing ts,
        overwrite_decision (get_input_files_hash fs md5) previous = false →
          main_output_file (get_input_files_hash fs md5) previous existing ts =
            "Range_Reconciliation_" ++ ts ++ ".xlsx") := by
  refine ⟨?_, ?_, ?_⟩
  · cases hcur : get_input_files_hash fs md5 with
    | none => simp [overwrite_decision]
    | some c =>
      cases previous with
      | none => simp [overwrite_decision]
      | some p => simp [overwrite_decision]
  · intro hmiss
    unfold get_input_files_hash
    rw [collect_input_hashes_missing fs md5 input_files hmiss]
    rfl
  · intro existing ts hfalse
    unfold main_output_file
    rw [hfalse]
    simp

/-- C6 witness. With every input file missing and no previous record,
the fingerprint is `None` and the output name is timestamp-suffixed. -/
theorem c6_witness :
    get_input_files_hash (fun _ => none) (fun _ => "d41d8cd9") = none ∧
      main_output_file (get_input_files_hash (fun _ => none) (fun _ => "d41d8cd9"))
        none none "20260101_000000" =
        "Range_Reconciliation_" ++ "20260101_000000" ++ ".xlsx" := by
  have h := c6_overwrite_iff (fun _ => none) (fun _ => "d41d8cd9") none
  exact ⟨h.2.1 ⟨"JEEVES/RECONC Product Data 2026-02-04.xlsx", by decide, rfl⟩,
    h.2.2 none "20260101_000000" (by decide)⟩

theorem headerFindIdx_none (aliases : List String) :
    ∀ (hs : List (Option String)) (i : Nat),
      (∀ s, some s ∈ hs → aliases.contains (pyNormHeader s) = false) →
      headerFindIdx aliases i hs = none := by
  intro hs
  induction hs with
  | nil => intro i _; rfl
  | cons a rest ih =>
    intro i h
    cases a with
    | none =>
      simp only [headerFindIdx]
      exact ih (i + 1) (fun s hm => h s (List.mem_cons_of_mem _ hm))
    | some s =>
      simp only [headerFindIdx, h s (List.mem_cons_self _ _), Bool.false_eq_true,
        if_false]
      exact ih (i + 1) (fun s' hm => h s' (List.mem_cons_of_mem _ hm))

/-- C7 (amended). When no header of the sheet normalizes to
`suvcordering/shipping`, `load_stibo_os_vendors` fails with the error naming
the missing column and listing the headers actually present.  (The STIBO
vendor-invoice loader, by contrast, silently falls back to column 1 — see
the counterexample.) -/
theorem c7_os_vendors_error (filename : String) (sheet : Sheet)
    (h : ∀ s, some s ∈ sheet.headers →
      pyNormHeader s ≠ "suvcordering/shipping") :
    load_stibo_os_vendors filename sheet =
      .error ⟨"SUVC Ordering/Shipping", filename,
        present_headers sheet.headers⟩ := by
  unfold load_stibo_os_vendors
  rw [headerFindIdx_none _ sheet.headers 0 ?_]
  intro s hm
  have hne := h s hm
  simp [List.contains, hne]

/-- C7 witness. A sheet whose only headers are `Foo`, an empty cell and
`""` makes the OS-vendors loader fail with the column name and the headers
present (`["Foo"]`). -/
theorem c7_witness :
    load_stibo_os_vendors "OS_Vendors_2302.xlsx"
        ⟨[some "Foo", none, some ""], [[.vStr "7"]]⟩ =
      .error ⟨"SUVC Ordering/Shipping", "OS_Vendors_2302.xlsx", ["Foo"]⟩ := by
  have h := c7_os_vendors_error "OS_Vendors_2302.xlsx"
    ⟨[some "Foo", none, some ""], [[.vStr "7"]]⟩ ?_
  · exact h
  · intro s hm
    simp only [List.mem_cons, List.not_mem_nil, or_false, Option.some.injEq,
      reduceCtorEq, false_or] at hm
    rcases hm with rfl | rfl <;> decide

/-- C7 counterexample. The claim as stated is false: with no matching
alias in the headers, the STIBO vendor-invoice loader does not fail — it
silently falls back to column 1 and returns that column's values. -/
theorem c7_counterexample :
    load_stibo_vendor_invoice_2302 ⟨[some "Foo"], [[.vStr "123"]]⟩ =
        [.vStr "123"] ∧
      _stibo_header_col [some "Foo"] ["suvcinvoice", "suvc-invoice"] = 1 :=
  ⟨rfl, rfl⟩

/-- C8 (amended). In the Invoice/Ordering path, `_normalize` removes all
null and empty-string members, so every key set handed to
`build_reconciliation` contains only non-empty strings.  The Product (Range)
path performs no such filtering — see the counterexample. -/
theorem c8_normalize_invariant (l : List (Option String)) :
    ∀ x ∈ _normalize l, ∃ s, x = some s ∧ s ≠ "" := by
  intro x hx
  unfold _normalize at hx
  rw [List.mem_filter] at hx
  have hp := of_decide_eq_true hx.2
  rcases x with _ | s
  · exact absurd rfl hp.1
  · exact ⟨s, rfl, fun e => hp.2 (by rw [e])⟩

/-- C8 witness. The amended invariant at a concrete filtered column. -/
theorem c8_witness : ∃ s, (some "A" : Option String) = some s ∧ s ≠ "" :=
  c8_normalize_invariant [some " A ", none, some "  "] (some "A") (by decide)

/-- C8 counterexample. The claim as stated is false for the Product
path: a whitespace-only raw code survives `create_range_reconciliation` as
the empty-string key of a matrix row. -/
theorem c8_counterexample :
    ∃ row ∈ create_range_reconciliation [PyVal.vStr "   "] [] [],
      row.code = some "" := by
  decide

/-- C1 (amended). For every non-null row of the Range matrix,
`Absent_from` is `"-"` exactly when the key is present in all three sources;
otherwise it lists the absent sources in the fixed order CT, JEEVES, STIBO
joined with `", "` — except that a key present only in JEEVES (absent from
CT and STIBO) yields `"CT, , STIBO"`: the empty middle slot keeps both of
its separators, which the end-stripping cannot remove. -/
theorem c1_absent_from_amended (jeves ct stibo : List PyVal) :
    ∀ row ∈ create_range_reconciliation jeves ct stibo, row.code ≠ none →
      row.absent =
        (if row.ct = "X" ∧ row.jeeves = "X" ∧ row.stibo = "X" then "-"
         else if row.ct ≠ "X" ∧ row.jeeves = "X" ∧ row.stibo ≠ "X" then
           "CT, , STIBO"
         else String.intercalate ", "
           ((if row.ct = "X" then [] else ["CT"]) ++
            (if row.jeeves = "X" then [] else ["JEEVES"]) ++
            (if row.stibo = "X" then [] else ["STIBO"]))) := by
  intro row hrow hcode
  simp only [create_range_reconciliation] at hrow
  rw [(List.perm_insertionSort _ _).mem_iff] at hrow
  obtain ⟨k, hk, rfl⟩ := List.mem_map.mp hrow
  cases k with
  | none => exact absurd rfl hcode
  | some s =>
    simp only [mkRangeRow, plIsIn]
    rcases Bool.eq_false_or_eq_true ((clean_and_convert ct).contains (some s)) with h1 | h1 <;>
      rcases Bool.eq_false_or_eq_true ((clean_and_convert jeves).contains (some s)) with h2 | h2 <;>
        rcases Bool.eq_false_or_eq_true ((clean_and_convert stibo).contains (some s)) with h3 | h3 <;>
          simp only [h1, h2, h3] <;> decide

/-- C1 witness. The spec's scenario: for row "A" (present only in CT)
the amended rule yields `"JEEVES, STIBO"`. -/
theorem c1_witness :
    (⟨some "A", "X", "", "", "JEEVES, STIBO"⟩ : RangeRow).absent =
      "JEEVES, STIBO" := by
  have h := c1_absent_from_amended [PyVal.vStr "B", PyVal.vStr "C"]
    [PyVal.vStr "A", PyVal.vStr "B"] [PyVal.vStr "B"]
    ⟨some "A", "X", "", "", "JEEVES, STIBO"⟩ (by decide) (by decide)
  exact h.trans (by decide)

/-- C1 counterexample. The claim as stated is false: in the spec's own
scenario (`CT={A,B}`, `JEEVES={B,C}`, `STIBO={B}`) the row "C" — present
only in JEEVES — carries `Absent_from = "CT, , STIBO"`, not the claimed
`"CT, STIBO"`. -/
theorem c1_counterexample :
    ∃ row ∈ create_range_reconciliation [PyVal.vStr "B", PyVal.vStr "C"]
        [PyVal.vStr "A", PyVal.vStr "B"] [PyVal.vStr "B"],
      row.code = some "C" ∧ row.jeeves = "X" ∧ row.ct ≠ "X" ∧
        row.stibo ≠ "X" ∧ row.absent ≠ "CT, STIBO" ∧
        row.absent = "CT, , STIBO" := by
  decide
